import Mathlib

/-!
A verification development for the keyword-bookmark search core of
moz-context-search (src/index.js).  JavaScript run-time behaviour is
embedded explicitly: a thrown exception or a rejected promise is an
`Except.error`, absent values are `Option`, and the JavaScript string
builtins the core relies on (encodeURIComponent, String.prototype.replace,
decodeURIComponent, localeCompare, Array.prototype.sort) are modelled as
executable functions on character lists.  Object mutation performed by
Object.assign and by the in-place Array sort is modelled with an explicit
heap of objects addressed by natural-number references.
-/

/-- Models a thrown JavaScript exception or a rejected promise. -/
inductive JsError where
  | typeError (msg : String)
  | uriError (msg : String)
  | malformedURI (url : String)
  | repoError (msg : String)
  deriving DecidableEq

deriving instance DecidableEq for Except

/-- Uppercase hex digit of a value below 16, as produced by the
percent-escaping of encodeURIComponent. -/
def hexDigitU (n : Nat) : Char :=
  if n < 10 then Char.ofNat (48 + n) else Char.ofNat (55 + n)

/-- One percent-escaped byte: a percent sign and two uppercase hex digits. -/
def byteHex (b : Nat) : List Char :=
  ['%', hexDigitU (b / 16), hexDigitU (b % 16)]

/-- UTF-8 byte sequence of one Unicode scalar value; encodeURIComponent
percent-escapes each of these bytes for a non-ASCII character. -/
def utf8Bytes (c : Char) : List Nat :=
  let n := c.toNat
  if n < 128 then [n]
  else if n < 2048 then [192 + n / 64, 128 + n % 64]
  else if n < 65536 then [224 + n / 4096, 128 + n / 64 % 64, 128 + n % 64]
  else [240 + n / 262144, 128 + n / 4096 % 64, 128 + n / 64 % 64, 128 + n % 64]

/-- Characters encodeURIComponent leaves unescaped: the letters, the
digits, hyphen, underscore, dot, bang, tilde, asterisk, the apostrophe
and the parentheses. -/
def isUnreservedURI (c : Char) : Bool :=
  let n := c.toNat
  (48 ≤ n && n ≤ 57) || (65 ≤ n && n ≤ 90) || (97 ≤ n && n ≤ 122) ||
    n == 45 || n == 95 || n == 46 || n == 33 || n == 126 || n == 42 ||
    n == 39 || n == 40 || n == 41

/-- Encoding of one character under encodeURIComponent: kept verbatim when
unreserved, otherwise every UTF-8 byte is percent-escaped. -/
def encURIChar (c : Char) : List Char :=
  if isUnreservedURI c then [c] else (utf8Bytes c).flatMap byteHex

/-- JavaScript encodeURIComponent on a whole string, as a character list. -/
def encodeURIComponentJS (s : String) : List Char :=
  s.data.flatMap encURIChar

/-- The second half of the source encoder (line 591): the global
replacement of the three characters percent-two-zero by a plus sign,
scanning left to right over non-overlapping occurrences. -/
def replaceP20 : List Char → List Char
  | '%' :: '2' :: '0' :: t => '+' :: replaceP20 t
  | c :: t => c :: replaceP20 t
  | [] => []

/-- Source line 591: encodeURIComponent followed by the plus rewrite. -/
def jsEncode (s : String) : String :=
  String.mk (replaceP20 (encodeURIComponentJS s))

/-- True when the character list contains the two-character marker
percent-s somewhere. -/
def hasPS : List Char → Bool
  | '%' :: 's' :: _ => true
  | _ :: t => hasPS t
  | [] => false

/-- Marker test on strings, the test of source line 450. -/
def hasMarker (s : String) : Bool := hasPS s.data

/-- The global percent-s replacement scan used at source lines 592 and
598: each non-overlapping occurrence of the marker becomes the
replacement list, every other character is copied. -/
def replacePS (e : List Char) : List Char → List Char
  | '%' :: 's' :: t => e ++ replacePS e t
  | c :: t => c :: replacePS e t
  | [] => []

/-- String-level wrapper for replacePS. -/
def jsSubstitute (template e : String) : String :=
  String.mk (replacePS e.data template.data)

/-- Decomposition of a template at every non-overlapping marker
occurrence, used to state what the replacement scan does. -/
def splitPS : List Char → List (List Char)
  | '%' :: 's' :: t => [] :: splitPS t
  | c :: t =>
    match splitPS t with
    | s :: ss => (c :: s) :: ss
    | [] => [[c]]
  | [] => [[]]

/-- Join segments with a separator between consecutive segments. -/
def joinWith (sep : List Char) : List (List Char) → List Char
  | [] => []
  | [s] => s
  | s :: s2 :: ss => s ++ sep ++ joinWith sep (s2 :: ss)

/-- Value of a hex digit, in either case, or none. -/
def hexVal (c : Char) : Option Nat :=
  let n := c.toNat
  if 48 ≤ n && n ≤ 57 then some (n - 48)
  else if 65 ≤ n && n ≤ 70 then some (n - 55)
  else if 97 ≤ n && n ≤ 102 then some (n - 87)
  else none

/-- JavaScript decodeURIComponent restricted to single-byte escapes: a
percent sign followed by two hex digits becomes the character with that
code, a malformed escape throws a URIError.  Multi-byte UTF-8 escape
aggregation is not modelled; the claims under verification only exercise
the ASCII fragment. -/
def decodeURIComponentJS : List Char → Except JsError (List Char)
  | [] => .ok []
  | '%' :: t =>
    match t with
    | c1 :: c2 :: t2 =>
      match hexVal c1, hexVal c2 with
      | some h1, some h2 =>
        match decodeURIComponentJS t2 with
        | .ok d => .ok (Char.ofNat (16 * h1 + h2) :: d)
        | .error e => .error e
      | _, _ => .error (.uriError "URI malformed")
    | _ => .error (.uriError "URI malformed")
  | c :: t =>
    match decodeURIComponentJS t with
    | .ok d => .ok (c :: d)
    | .error e => .error e

/-- Characters allowed in a URI scheme after the leading letter. -/
def isSchemeChar (c : Char) : Bool :=
  c.isAlphanum || c == '+' || c == '-' || c == '.'

/-- Scan for the colon that terminates a well-formed scheme. -/
def schemeColon : List Char → Bool
  | [] => false
  | c :: t => if c == ':' then true else isSchemeChar c && schemeColon t

/-- Models Services.io.newURI: accepts absolute URI strings (a leading
letter, scheme characters, a colon) and throws NS_ERROR_MALFORMED_URI on
anything else.  The returned nsIURI object is identified with its spec
string. -/
def newURI (s : String) : Except JsError String :=
  match s.data with
  | c :: t => if c.isAlpha && schemeColon t then .ok s else .error (.malformedURI s)
  | [] => .error (.malformedURI s)

/-- A raw keyword record as resolved by PlacesUtils.keywords.fetch.  The
url field is the href string of the entry URL object; an absent postData
is modelled by the empty string, which is falsy exactly like null. -/
structure KeywordRecord where
  keyword : String
  url : String
  postData : String
  deriving DecidableEq

/-- The bookmark object literal built at source lines 481 to 489. -/
structure Bookmark where
  id : Nat
  description : String
  title : String
  url : String
  keyword : String
  iconURL : String
  postData : String
  deriving DecidableEq

/-- The POST body assembled from the string and MIME input streams at
source lines 596 to 602. -/
structure PostBody where
  contentType : String
  addContentLength : Bool
  data : String
  deriving DecidableEq

/-- The object literal returned by the fake-engine getSubmission. -/
structure Submission where
  uri : String
  postData : Option PostBody
  deriving DecidableEq

/-- Result of PlacesUtils.promiseFaviconData: mime type, bytes, length. -/
structure FaviconData where
  mimeType : String
  data : List Nat
  dataLen : Nat
  deriving DecidableEq

/-- Read-only repository interface consumed by the core (PlacesUtils
tagging, keywords, bookmarks, item annotations and favicons).  Fallible
reads return Except: an error is a rejected promise or a thrown lookup
failure.  The fields itemHasAnnot and getItemAnnot model
pAnnotations.itemHasAnnotation and pAnnotations.getItemAnnotation. -/
structure Repository where
  getURIsForTag : String → List String
  fetchKeyword : String → Except JsError (Option KeywordRecord)
  getBookmarkIdsForURI : String → List Nat
  getItemType : Nat → Nat
  itemHasAnnot : Nat → String → Bool
  getItemAnnot : Nat → String → String
  getItemTitle : Nat → String
  promiseFaviconData : String → Except JsError FaviconData

/-- The postData handling of source line 447: a falsy (absent, empty)
postData stays empty, anything else is percent-decoded, which can throw. -/
def decodedPostData (kr : KeywordRecord) : Except JsError String :=
  if kr.postData = "" then .ok ""
  else Except.map String.mk (decodeURIComponentJS kr.postData.data)

/-- nsINavBookmarksService.TYPE_BOOKMARK; folders are 2, separators 3. -/
def TYPE_BOOKMARK : Nat := 1

/-- Promise.all over an array of fallible operations: the first rejection
rejects the whole batch, otherwise the array of resolved values. -/
def promiseAll {α β : Type} (f : α → Except JsError β) : List α → Except JsError (List β)
  | [] => .ok []
  | a :: as =>
    match f a with
    | .error e => .error e
    | .ok b =>
      match promiseAll f as with
      | .ok bs => .ok (b :: bs)
      | .error e => .error e

namespace MCS

/-- Cached spec of the default favicon (source line 43), computed once by
pFavicons.defaultFavicon.spec and read-only afterwards. -/
def getDefaultFavicon : String := "chrome://mozapps/skin/places/defaultFavicon.png"

/-- Source lines 443 to 492.  The argument is the raw result of one
keyword fetch: null (none) makes the property accesses of lines 444 and
445 throw a TypeError.  A record carrying no percent-s marker in its url
or decoded postData yields null (none), the silent-exclusion branch of
line 451.  The bookmark id is the first id of bookmark type found in the
id list of the URI; through the falsy test of line 467 both a missing id
and the id 0 collapse to null. -/
def keywordResultToBookmark (repo : Repository) :
    Option KeywordRecord → Except JsError (Option Bookmark)
  | none => .error (.typeError "keywordResult is null")
  | some keywordResult =>
    let keyword := keywordResult.keyword
    let url := keywordResult.url
    match decodedPostData keywordResult with
    | .error e => .error e
    | .ok postData =>
      if !(hasMarker url || hasMarker postData) then .ok none
      else
        match newURI url with
        | .error e => .error e
        | .ok _ =>
          let bookmarkIds := repo.getBookmarkIdsForURI url
          let bookmarkId : Option Nat :=
            if bookmarkIds.length > 0 then
              bookmarkIds.find? (fun id => repo.getItemType id == TYPE_BOOKMARK)
            else none
          match bookmarkId with
          | none => .ok none
          | some id =>
            if id = 0 then .ok none
            else
              let description :=
                if repo.itemHasAnnot id "bookmarkProperties/description" then
                  repo.getItemAnnot id "bookmarkProperties/description"
                else ""
              let title := repo.getItemTitle id
              .ok (some { id, description, title, url, keyword, iconURL := "", postData })

/-- Source lines 433 to 435: map the keyword results and drop the falsy
(null) entries; a TypeError thrown by the mapper aborts the whole map. -/
def keywordResultsToBookmarks (repo : Repository)
    (keywordResults : List (Option KeywordRecord)) : Except JsError (List Bookmark) :=
  Except.map (fun l => l.filterMap id)
    (promiseAll (keywordResultToBookmark repo) keywordResults)

/-- Source lines 624 to 634: resolve the tag to URIs, spawn one keyword
fetch per URI and join them with Promise.all. -/
def getKeywordBookmarksForTag (repo : Repository) (tag : String) :
    Except JsError (List (Option KeywordRecord)) :=
  let uris := repo.getURIsForTag tag
  promiseAll repo.fetchKeyword uris

/-- The candidate-resolution stage of the pipeline chain at source lines
301 and 302 (getCandidates of the spec): keyword fetch fan-out followed
by conversion to bookmark objects. -/
def getCandidates (repo : Repository) (tag : String) : Except JsError (List Bookmark) :=
  match getKeywordBookmarksForTag repo tag with
  | .error e => .error e
  | .ok keywordResults => keywordResultsToBookmarks repo keywordResults

/-- The call-site guard of source lines 292 to 296 composed with the
resolver: an empty searchBookmarksTag pref disables the feature, so the
menu receives no keyword bookmarks at all. -/
def keywordMenuCandidates (repo : Repository) (tag : String) :
    Except JsError (List Bookmark) :=
  if tag = "" then .ok [] else getCandidates repo tag

/-- The value with which one favicon-resolution promise settles: the
(mutated) bookmark object itself, by reference, or a bare string from the
zero-length branch of source line 516. -/
inductive FavResolved where
  | ref (r : Nat)
  | str (s : String)
  deriving DecidableEq

/-- Heap of bookmark objects; references are natural numbers. -/
def BookmarkHeap := Nat → Bookmark

/-- Overwrite the object stored at one reference. -/
def BookmarkHeap.set (h : BookmarkHeap) (r : Nat) (b : Bookmark) : BookmarkHeap :=
  fun i => if i = r then b else h i

/-- Alphabet of sdk base64 encoding. -/
def base64Digit (n : Nat) : Char :=
  if n < 26 then Char.ofNat (65 + n)
  else if n < 52 then Char.ofNat (97 + (n - 26))
  else if n < 62 then Char.ofNat (48 + (n - 52))
  else if n == 62 then '+'
  else '/'

/-- btoa-style base64 of a byte list, modelling base64.encode applied to
the binary string built by String.fromCharCode at source line 519. -/
def base64Encode : List Nat → List Char
  | b1 :: b2 :: b3 :: t =>
    base64Digit (b1 / 4) :: base64Digit (b1 % 4 * 16 + b2 / 16) ::
      base64Digit (b2 % 16 * 4 + b3 / 64) :: base64Digit (b3 % 64) :: base64Encode t
  | [b1, b2] =>
    [base64Digit (b1 / 4), base64Digit (b1 % 4 * 16 + b2 / 16),
      base64Digit (b2 % 16 * 4), '=']
  | [b1] =>
    [base64Digit (b1 / 4), base64Digit (b1 % 4 * 16), '=', '=']
  | [] => []

/-- Source lines 513 to 530.  In the zero-length branch the promise
resolves with the default-favicon string itself and the bookmark object
is left untouched; in the data branch Object.assign overwrites iconURL on
the same object and the promise resolves with that object; the catch
branch recovers a rejected fetch by assigning the default favicon to the
same object.  The heap carries the mutation. -/
def resolveBookmarkFavicon (repo : Repository) (h : BookmarkHeap) (r : Nat) :
    BookmarkHeap × FavResolved :=
  match repo.promiseFaviconData (h r).url with
  | .ok data =>
    if data.dataLen = 0 then (h, .str getDefaultFavicon)
    else
      let rawCharData := data.data
      let encodedData := base64Encode rawCharData
      let dataURI := "data:" ++ data.mimeType ++ ";base64," ++ String.mk encodedData
      (h.set r { h r with iconURL := dataURI }, .ref r)
  | .error _ => (h.set r { h r with iconURL := getDefaultFavicon }, .ref r)

/-- Source lines 500 to 505: Promise.all over the per-bookmark favicon
resolutions.  Every branch of resolveBookmarkFavicon settles, so the join
never rejects; the heap threads the per-object mutations. -/
def promiseAllBookmarksWithFavicons (repo : Repository) (h : BookmarkHeap) :
    List Nat → BookmarkHeap × List FavResolved
  | [] => (h, [])
  | r :: rs =>
    let step := resolveBookmarkFavicon repo h r
    let rest := promiseAllBookmarksWithFavicons repo step.1 rs
    (rest.1, step.2 :: rest.2)

end MCS

/-- Lexicographic comparison of collation key lists. -/
def cmpNatList : List Nat → List Nat → Ordering
  | [], [] => .eq
  | [], _ :: _ => .lt
  | _ :: _, [] => .gt
  | a :: as, b :: bs => (compare a b).then (cmpNatList as bs)

/-- Primary collation key: case-folded code points, the first pass of the
default-locale (root) collation on ASCII text. -/
def localePrimary (s : String) : List Nat := s.data.map fun c => c.toLower.toNat

/-- Tertiary collation key: case bits, lowercase ordered before
uppercase on a primary tie. -/
def localeTertiary (s : String) : List Nat :=
  s.data.map fun c => if c.isUpper then 1 else 0

/-- Model of String.prototype.localeCompare under the default locale,
restricted to ASCII: the primary pass is case-insensitive over the whole
strings, the tertiary pass breaks primary ties by case. -/
def jsLocaleCompare (a b : String) : Int :=
  match (cmpNatList (localePrimary a) (localePrimary b)).then
      (cmpNatList (localeTertiary a) (localeTertiary b)) with
  | .lt => -1
  | .eq => 0
  | .gt => 1

/-- Comparator relation induced by the sort callback of source line 617:
a precedes-or-ties b exactly when the comparator value is nonpositive. -/
def titleLE (a b : Bookmark) : Prop := jsLocaleCompare a.title b.title ≤ 0

instance : DecidableRel titleLE := fun a b =>
  inferInstanceAs (Decidable (jsLocaleCompare a.title b.title ≤ 0))

namespace MCS

/-- Source lines 616 to 618 as a function on bookmark values:
Array.prototype.sort with the title localeCompare callback.  The
ECMAScript specification requires the sort to be stable, so a stable
insertion sort models the observable result. -/
def sortBookmarksByTitle (bookmarks : List Bookmark) : List Bookmark :=
  List.insertionSort titleLE bookmarks

/-- Heap of array objects holding bookmark references. -/
def ArrayHeap := Nat → List Nat

/-- Overwrite the contents of one array object. -/
def ArrayHeap.set (h : ArrayHeap) (a : Nat) (l : List Nat) : ArrayHeap :=
  fun i => if i = a then l else h i

/-- The sort callback read through the bookmark heap. -/
def titleRefLE (bh : BookmarkHeap) (r1 r2 : Nat) : Prop :=
  jsLocaleCompare (bh r1).title (bh r2).title ≤ 0

instance (bh : BookmarkHeap) : DecidableRel (titleRefLE bh) := fun r1 r2 =>
  inferInstanceAs (Decidable (jsLocaleCompare (bh r1).title (bh r2).title ≤ 0))

/-- Source lines 616 to 618 at the object level: Array.prototype.sort
permutes the elements of the receiver array in place and returns the
receiver array itself; no copy is made. -/
def sortBookmarksByTitleInPlace (bh : BookmarkHeap) (ah : ArrayHeap) (arr : Nat) :
    ArrayHeap × Nat :=
  (ah.set arr (List.insertionSort (titleRefLE bh) (ah arr)), arr)

end MCS

/-- The fake-engine getSubmission closure of source lines 590 to 606.
The Services.io.newURI call of line 593 is not guarded: a malformed
substituted URL throws, and the error propagates to the caller (the
click handler calls getSubmission outside any try block). -/
def getSubmission (bookmark : Bookmark) (searchText : String) :
    Except JsError Submission :=
  let encodedText := jsEncode searchText
  let url := jsSubstitute bookmark.url encodedText
  match newURI url with
  | .error e => .error e
  | .ok uri =>
    let postData : Option PostBody :=
      if bookmark.postData = "" then none
      else some { contentType := "application/x-www-form-urlencoded",
                  addContentLength := true,
                  data := jsSubstitute bookmark.postData encodedText }
    .ok { uri := uri, postData := postData }

/-- Keyword record fixture: a well-formed search template. -/
def krGood : KeywordRecord :=
  { keyword := "g", url := "https://x.com/?q=%s", postData := "" }

/-- Repository fixture for the batch-failure scenario: two tagged URIs,
the keyword fetch of the first rejects, the second resolves to krGood. -/
def repoFetchErr : Repository :=
  { getURIsForTag := fun t => if t = "search" then ["https://bad.example/", "https://x.com/?q=%s"] else []
    fetchKeyword := fun u => if u = "https://bad.example/" then .error (.repoError "db failure")
      else .ok (some krGood)
    getBookmarkIdsForURI := fun _ => [11]
    getItemType := fun _ => TYPE_BOOKMARK
    itemHasAnnot := fun _ _ => false
    getItemAnnot := fun _ _ => ""
    getItemTitle := fun _ => "Good"
    promiseFaviconData := fun _ => .error (.repoError "favicon") }

/-- Same two URIs, but the first fetch resolves with null: the bookmark
is tagged yet carries no keyword. -/
def repoFetchNone : Repository := { repoFetchErr with
    fetchKeyword := fun u => if u = "https://bad.example/" then .ok none else .ok (some krGood) }

/-- Repository whose tag resolves to no URIs at all. -/
def repoNoTags : Repository := { repoFetchErr with getURIsForTag := fun _ => [] }

/-- Repository whose single tagged URI has a plain shortcut keyword
record: no substitution marker in url or postData. -/
def repoShortcut : Repository := { repoFetchErr with
    getURIsForTag := fun t => if t = "search" then ["https://plain.example/page"] else []
    fetchKeyword := fun _ =>
      .ok (some { keyword := "p", url := "https://plain.example/page", postData := "" }) }

/-- Repository producing exactly one candidate from krGood. -/
def repoOne : Repository := { repoFetchErr with
    getURIsForTag := fun t => if t = "search" then ["https://x.com/?q=%s"] else []
    fetchKeyword := fun _ => .ok (some krGood)
    getBookmarkIdsForURI := fun u => if u = krGood.url then [11] else [] }

/-- The bookmark object repoOne produces from krGood. -/
def bookOne : Bookmark :=
  { id := 11, description := "", title := "Good", url := krGood.url,
    keyword := "g", iconURL := "", postData := "" }

/-- Repository where the URI of krGood maps to the ids 0 and 7, both of
bookmark type: the id 0 is falsy in the test of source line 467. -/
def repoFindZero : Repository := { repoFetchErr with
    getBookmarkIdsForURI := fun u => if u = krGood.url then [0, 7] else [] }

/-- Repository where the URI of krGood maps to a folder id 4 and then a
bookmark id 6. -/
def repoFindSix : Repository := { repoFetchErr with
    getBookmarkIdsForURI := fun u => if u = krGood.url then [4, 6] else []
    getItemType := fun id => if id = 4 then 2 else TYPE_BOOKMARK }

/-- Repository where the URI of krGood maps to no item ids at all. -/
def repoNoBookmarkIds : Repository := { repoFetchErr with
    getBookmarkIdsForURI := fun _ => [] }

/-- The bookmark object repoFindSix produces from krGood. -/
def bookSix : Bookmark :=
  { id := 6, description := "", title := "Good", url := krGood.url,
    keyword := "g", iconURL := "", postData := "" }

/-- Candidate bookmark fixtures for the favicon-enrichment scenarios. -/
def bmZero : Bookmark :=
  { id := 21, description := "", title := "Zero", url := "https://zero.example/",
    keyword := "z", iconURL := "", postData := "" }

def bmOne : Bookmark :=
  { id := 22, description := "", title := "One", url := "https://one.example/",
    keyword := "o", iconURL := "", postData := "" }

/-- Heap fixture: reference 0 holds bmZero, all other references bmOne. -/
def heapZeroOne : MCS.BookmarkHeap := fun r => if r = 0 then bmZero else bmOne

/-- Favicon data fixture: the three bytes of abc as a png. -/
def favAbc : FaviconData := { mimeType := "image/png", data := [97, 98, 99], dataLen := 3 }

/-- Favicon repository fixture: the url of bmZero fetches zero-length
data, every other url fetches favAbc. -/
def repoFav : Repository := { repoFetchErr with
    promiseFaviconData := fun u =>
      if u = bmZero.url then .ok { mimeType := "image/png", data := [], dataLen := 0 }
      else .ok favAbc }

/-- Engine template fixtures for the submission builder. -/
def bmMarkerOnly : Bookmark :=
  { id := 2, description := "", title := "bad", url := "%s",
    keyword := "b", iconURL := "", postData := "" }

def bmSpaceURL : Bookmark :=
  { id := 3, description := "", title := "spc", url := "foo bar/%s",
    keyword := "f", iconURL := "", postData := "" }

def bmBuild : Bookmark :=
  { id := 4, description := "", title := "x", url := "https://x.com/s?q=%s",
    keyword := "x", iconURL := "", postData := "" }

def bmBuildPost : Bookmark :=
  { id := 5, description := "", title := "xp", url := "https://x.com/s",
    keyword := "xp", iconURL := "", postData := "q=%s&lang=en" }

/-- Title fixtures for the sort example. -/
def bookTitleB : Bookmark :=
  { id := 31, description := "", title := "B", url := "", keyword := "",
    iconURL := "", postData := "" }

def bookTitleA : Bookmark :=
  { id := 32, description := "", title := "a", url := "", keyword := "",
    iconURL := "", postData := "" }

def bookTitleC : Bookmark :=
  { id := 33, description := "", title := "C", url := "", keyword := "",
    iconURL := "", postData := "" }

/-- Encoder written from the words of the spec: percent-encode per URL
query-component rules, with every space re-encoded directly as a plus
sign instead of a percent-escape. -/
def encodeSpecC7 (s : String) : String :=
  String.mk (s.data.flatMap fun c => if c = ' ' then ['+'] else encURIChar c)

/-- Composition of the two collation passes of the localeCompare model,
as one Ordering value. -/
def lexOrdT (a b : String) : Ordering :=
  (cmpNatList (localePrimary a) (localePrimary b)).then
    (cmpNatList (localeTertiary a) (localeTertiary b))

/-!  Facts about the encoder: the percent-twenty rewrite of the source
acts exactly as a per-character space-to-plus encoding. -/

theorem char_toNat_lt (c : Char) : c.toNat < 1114112 := by
  rcases c.valid with h | ⟨h1, h2⟩
  · exact Nat.lt_trans h (by norm_num)
  · exact h2

theorem char_eq_space_of_toNat (c : Char) (h : c.toNat = 32) : c = ' ' := by
  apply Char.ext
  apply UInt32.ext
  exact h

theorem hexDigitU_ne_percent : ∀ d, d < 16 → hexDigitU d ≠ '%' := by decide

theorem hexDigitU_eq_two : ∀ d, d < 16 → (hexDigitU d = '2' ↔ d = 2) := by decide

theorem hexDigitU_eq_zero : ∀ d, d < 16 → (hexDigitU d = '0' ↔ d = 0) := by decide

theorem utf8Bytes_bound (c : Char) : ∀ b ∈ utf8Bytes c, b < 256 := by
  have hv := char_toNat_lt c
  intro b hb
  simp only [utf8Bytes] at hb
  split at hb
  · simp at hb; omega
  · split at hb
    · simp at hb; rcases hb with h | h <;> omega
    · split at hb
      · simp at hb; rcases hb with h | h | h <;> omega
      · simp at hb; rcases hb with h | h | h | h <;> omega

theorem utf8Bytes_ne_32 (c : Char) (hc : c ≠ ' ') : ∀ b ∈ utf8Bytes c, b ≠ 32 := by
  intro b hb
  simp only [utf8Bytes] at hb
  split at hb
  · simp at hb
    subst hb
    intro h32
    exact hc (char_eq_space_of_toNat c h32)
  · split at hb
    · simp at hb; rcases hb with h | h <;> omega
    · split at hb
      · simp at hb; rcases hb with h | h | h <;> omega
      · simp at hb; rcases hb with h | h | h | h <;> omega

theorem replaceP20_cons_ne (c : Char) (t : List Char) (h : c ≠ '%') :
    replaceP20 (c :: t) = c :: replaceP20 t := by
  rw [replaceP20.eq_def]
  split
  · rename_i heq; injection heq with e1 e2; exact absurd e1 h
  · rename_i hno heq; injection heq with e1 e2; subst e1; subst e2; rfl
  · rename_i heq; cases heq

theorem replaceP20_unit (h1 h2 : Char) (t : List Char)
    (hh1 : h1 ≠ '%') (hh2 : h2 ≠ '%') (hne : ¬(h1 = '2' ∧ h2 = '0')) :
    replaceP20 ('%' :: h1 :: h2 :: t) = '%' :: h1 :: h2 :: replaceP20 t := by
  rw [replaceP20.eq_def]
  split
  · rename_i heq
    injection heq with e1 e2; injection e2 with e3 e4; injection e4 with e5 e6
    exact absurd ⟨e3, e5⟩ hne
  · rename_i hno heq
    injection heq with e1 e2; subst e1; subst e2
    rw [replaceP20_cons_ne _ _ hh1, replaceP20_cons_ne _ _ hh2]
  · rename_i heq; cases heq

theorem replaceP20_byteHex (b : Nat) (hb : b < 256) (h32 : b ≠ 32) (t : List Char) :
    replaceP20 (byteHex b ++ t) = byteHex b ++ replaceP20 t := by
  have h16a : b / 16 < 16 := by omega
  have h16b : b % 16 < 16 := by omega
  show replaceP20 ('%' :: hexDigitU (b / 16) :: hexDigitU (b % 16) :: t) = _
  rw [replaceP20_unit _ _ _ (hexDigitU_ne_percent _ h16a) (hexDigitU_ne_percent _ h16b) ?hne]
  · rfl
  case hne =>
    rintro ⟨e2, e0⟩
    rw [hexDigitU_eq_two _ h16a] at e2
    rw [hexDigitU_eq_zero _ h16b] at e0
    omega

theorem replaceP20_flatMapBytes (bs : List Nat) (hb : ∀ b ∈ bs, b < 256 ∧ b ≠ 32)
    (t : List Char) :
    replaceP20 (bs.flatMap byteHex ++ t) = bs.flatMap byteHex ++ replaceP20 t := by
  induction bs with
  | nil => simp
  | cons b bs ih =>
    simp only [List.flatMap_cons, List.append_assoc]
    rw [replaceP20_byteHex b (hb b (by simp)).1 (hb b (by simp)).2]
    rw [ih (fun x hx => hb x (by simp [hx]))]

theorem isUnreservedURI_ne_percent (c : Char) (h : isUnreservedURI c = true) :
    c ≠ '%' := by
  intro he
  subst he
  exact absurd h (by decide)

theorem replaceP20_encURIChar (c : Char) (hc : c ≠ ' ') (t : List Char) :
    replaceP20 (encURIChar c ++ t) = encURIChar c ++ replaceP20 t := by
  unfold encURIChar
  split
  · rename_i h
    exact replaceP20_cons_ne c t (isUnreservedURI_ne_percent c h)
  · exact replaceP20_flatMapBytes _
      (fun b hb => ⟨utf8Bytes_bound c b hb, utf8Bytes_ne_32 c hc b hb⟩) t

theorem encURIChar_space : encURIChar ' ' = ['%', '2', '0'] := by decide

theorem replaceP20_space (t : List Char) :
    replaceP20 ('%' :: '2' :: '0' :: t) = '+' :: replaceP20 t := rfl

theorem replaceP20_flatMap_enc (cs : List Char) :
    replaceP20 (cs.flatMap encURIChar) =
      cs.flatMap (fun c => if c = ' ' then ['+'] else encURIChar c) := by
  induction cs with
  | nil => rfl
  | cons c cs ih =>
    simp only [List.flatMap_cons]
    by_cases hc : c = ' '
    · subst hc
      rw [encURIChar_space, if_pos rfl]
      simp only [List.cons_append, List.nil_append]
      rw [replaceP20_space, ih]
    · rw [replaceP20_encURIChar c hc, ih, if_neg hc]

/-!  Facts about the percent-s replacement scan: it is exactly the
marker-decomposition of the template joined with the replacement. -/

theorem splitPS_marker (t : List Char) : splitPS ('%' :: 's' :: t) = [] :: splitPS t := rfl

theorem replacePS_marker (e t : List Char) :
    replacePS e ('%' :: 's' :: t) = e ++ replacePS e t := rfl

theorem replacePS_cons_ne (e : List Char) (c : Char) (t : List Char)
    (h : ∀ tail, c = '%' → t = 's' :: tail → False) :
    replacePS e (c :: t) = c :: replacePS e t := by
  rw [replacePS.eq_def]
  split
  · rename_i heq; injection heq with e1 e2; exact (h _ e1 e2).elim
  · rename_i hno heq; injection heq with e1 e2; subst e1; subst e2; rfl
  · rename_i heq; cases heq

theorem hasPS_cons_ne (c : Char) (t : List Char)
    (h : ∀ tail, c = '%' → t = 's' :: tail → False) :
    hasPS (c :: t) = hasPS t := by
  rw [hasPS.eq_def]
  split
  · rename_i heq; injection heq with e1 e2; exact (h _ e1 e2).elim
  · rename_i hno heq; injection heq with e1 e2; subst e1; subst e2; rfl
  · rename_i heq; cases heq

theorem splitPS_cons_ne_cons (c : Char) (t : List Char)
    (h : ∀ tail, c = '%' → t = 's' :: tail → False)
    (s : List Char) (ss : List (List Char)) (hs : splitPS t = s :: ss) :
    splitPS (c :: t) = (c :: s) :: ss := by
  rw [splitPS.eq_def]
  split
  · rename_i heq; injection heq with e1 e2; exact (h _ e1 e2).elim
  · rename_i hno heq; injection heq with e1 e2; subst e1; subst e2; rw [hs]
  · rename_i heq; cases heq

theorem splitPS_ne_nil (t : List Char) : splitPS t ≠ [] := by
  induction t using splitPS.induct with
  | case1 t ih => rw [splitPS_marker]; simp
  | case2 c t h s ss hs ih => rw [splitPS_cons_ne_cons c t h s ss hs]; simp
  | case3 c t h hnil ih => exact (ih hnil).elim
  | case4 => simp [splitPS]

theorem joinWith_pair (sep s : List Char) (s2 : List Char) (ss : List (List Char)) :
    joinWith sep (s :: s2 :: ss) = s ++ sep ++ joinWith sep (s2 :: ss) := rfl

theorem joinWith_one (sep s : List Char) : joinWith sep [s] = s := rfl

theorem joinWith_splitPS (t : List Char) : joinWith ['%', 's'] (splitPS t) = t := by
  induction t using splitPS.induct with
  | case1 t ih =>
    rw [splitPS_marker]
    cases hs : splitPS t with
    | nil => exact (splitPS_ne_nil t hs).elim
    | cons s ss =>
      rw [hs] at ih
      rw [joinWith_pair, ← ih]
      rfl
  | case2 c t h s ss hs ih =>
    rw [splitPS_cons_ne_cons c t h s ss hs]
    rw [hs] at ih
    cases ss with
    | nil =>
      rw [joinWith_one] at ih ⊢
      rw [ih]
    | cons s2 ss2 =>
      rw [joinWith_pair] at ih ⊢
      rw [← ih]
      rfl
  | case3 c t h hnil ih => exact (splitPS_ne_nil t hnil).elim
  | case4 => rfl

theorem replacePS_eq_joinWith (e t : List Char) :
    replacePS e t = joinWith e (splitPS t) := by
  induction t using splitPS.induct with
  | case1 t ih =>
    rw [splitPS_marker, replacePS_marker]
    cases hs : splitPS t with
    | nil => exact (splitPS_ne_nil t hs).elim
    | cons s ss =>
      rw [hs] at ih
      rw [joinWith_pair, ih]
      rfl
  | case2 c t h s ss hs ih =>
    rw [splitPS_cons_ne_cons c t h s ss hs, replacePS_cons_ne e c t h]
    rw [hs] at ih
    cases ss with
    | nil =>
      rw [joinWith_one] at ih ⊢
      rw [ih]
    | cons s2 ss2 =>
      rw [joinWith_pair] at ih ⊢
      rw [ih]
      rfl
  | case3 c t h hnil ih => exact (splitPS_ne_nil t hnil).elim
  | case4 => rfl

theorem splitPS_head (t : List Char) (a : Char) (s : List Char) (ss : List (List Char))
    (h : splitPS t = (a :: s) :: ss) : ∃ t2, t = a :: t2 := by
  induction t using splitPS.induct with
  | case1 t ih =>
    rw [splitPS_marker] at h
    injection h with h1 h2
    cases h1
  | case2 c t hno s0 ss0 hs ih =>
    rw [splitPS_cons_ne_cons c t hno s0 ss0 hs] at h
    injection h with h1 h2
    injection h1 with h3 h4
    subst h3
    exact ⟨t, rfl⟩
  | case3 c t hno hnil ih => exact (splitPS_ne_nil t hnil).elim
  | case4 => simp [splitPS] at h

theorem hasPS_singleton (c : Char) : hasPS [c] = false := by
  rw [hasPS_cons_ne c [] (by intro tail hc he; cases he)]
  rfl

theorem splitPS_noPS (t : List Char) : ∀ s ∈ splitPS t, hasPS s = false := by
  induction t using splitPS.induct with
  | case1 t ih =>
    rw [splitPS_marker]
    intro s hs
    rcases List.mem_cons.mp hs with h | h
    · subst h; rfl
    · exact ih s h
  | case2 c t h s0 ss0 hs ih =>
    rw [splitPS_cons_ne_cons c t h s0 ss0 hs]
    intro x hx
    rcases List.mem_cons.mp hx with hxe | hxm
    · subst hxe
      cases s0 with
      | nil => exact hasPS_singleton c
      | cons a s0t =>
        obtain ⟨t2, ht2⟩ := splitPS_head t a s0t ss0 hs
        have hcond : ∀ tail, c = '%' → a :: s0t = 's' :: tail → False := by
          intro tail hc ha
          injection ha with ha1 ha2
          subst ha1
          exact h t2 hc ht2
        rw [hasPS_cons_ne c (a :: s0t) hcond]
        exact ih (a :: s0t) (by rw [hs]; exact List.mem_cons_self _ _)
    · exact ih x (by rw [hs]; exact List.mem_cons_of_mem _ hxm)
  | case3 c t h hnil ih => exact (splitPS_ne_nil t hnil).elim
  | case4 =>
    intro s hs
    simp [splitPS] at hs
    subst hs
    rfl

/-!  Facts about the localeCompare model and the stable title sort. -/

theorem then_lt (o : Ordering) : Ordering.lt.then o = .lt := rfl

theorem then_gt (o : Ordering) : Ordering.gt.then o = .gt := rfl

theorem then_eq (o : Ordering) : Ordering.eq.then o = o := rfl

theorem then_swap (o1 o2 : Ordering) : (o1.then o2).swap = o1.swap.then o2.swap := by
  cases o1 <;> rfl

theorem cmpNatList_eq_iff : ∀ as bs, cmpNatList as bs = .eq ↔ as = bs := by
  intro as
  induction as with
  | nil => intro bs; cases bs <;> simp [cmpNatList]
  | cons a at_ ih =>
    intro bs
    cases bs with
    | nil => simp [cmpNatList]
    | cons b bt =>
      simp only [cmpNatList]
      constructor
      · intro h
        rcases hc : compare a b with hl | he | hg
        · rw [hc, then_lt] at h; cases h
        · rw [hc, then_eq] at h
          have hab := (Nat.compare_eq_eq).mp hc
          have := (ih bt).mp h
          simp [hab, this]
        · rw [hc, then_gt] at h; cases h
      · intro h
        injection h with h1 h2
        subst h1; subst h2
        rw [(Nat.compare_eq_eq).mpr rfl, then_eq]
        exact (ih _).mpr rfl

theorem cmpNatList_swap : ∀ as bs, (cmpNatList as bs).swap = cmpNatList bs as := by
  intro as
  induction as with
  | nil => intro bs; cases bs <;> rfl
  | cons a at_ ih =>
    intro bs
    cases bs with
    | nil => rfl
    | cons b bt =>
      simp only [cmpNatList]
      rw [then_swap, Nat.compare_swap, ih bt]

theorem cmpNatList_ngt_trans : ∀ as bs cs, cmpNatList as bs ≠ .gt → cmpNatList bs cs ≠ .gt →
    cmpNatList as cs ≠ .gt := by
  intro as
  induction as with
  | nil =>
    intro bs cs hab hbc
    cases cs with
    | nil => simp [cmpNatList]
    | cons c ct => simp [cmpNatList]
  | cons a at_ ih =>
    intro bs cs hab hbc
    cases bs with
    | nil => exact absurd rfl hab
    | cons b bt =>
      cases cs with
      | nil => exact absurd rfl hbc
      | cons c ct =>
        simp only [cmpNatList] at hab hbc ⊢
        rcases hac : compare a b with h | h | h
        all_goals rw [hac] at hab
        · rcases hbc2 : compare b c with h2 | h2 | h2
          all_goals rw [hbc2] at hbc
          · have : a < c := Nat.lt_trans (Nat.compare_eq_lt.mp hac) (Nat.compare_eq_lt.mp hbc2)
            rw [Nat.compare_eq_lt.mpr this, then_lt]
            simp
          · have hbc3 := Nat.compare_eq_eq.mp hbc2
            subst hbc3
            rw [hac, then_lt]
            simp
          · rw [then_gt] at hbc; exact absurd rfl hbc
        · have hab3 := Nat.compare_eq_eq.mp hac
          subst hab3
          rcases hbc2 : compare a c with h2 | h2 | h2
          all_goals rw [hbc2] at hbc
          · rw [then_lt]; simp
          · rw [then_eq] at hab hbc ⊢
            exact ih bt ct hab hbc
          · rw [then_gt] at hbc; exact absurd rfl hbc
        · rw [then_gt] at hab; exact absurd rfl hab

theorem jsLocaleCompare_eq_match (a b : String) :
    jsLocaleCompare a b = match lexOrdT a b with
      | .lt => -1 | .eq => 0 | .gt => 1 := rfl

theorem locale_le_iff (a b : String) : jsLocaleCompare a b ≤ 0 ↔ lexOrdT a b ≠ .gt := by
  rw [jsLocaleCompare_eq_match]
  rcases h : lexOrdT a b with _ | _ | _ <;> simp

theorem lexOrdT_swap (a b : String) : (lexOrdT a b).swap = lexOrdT b a := by
  unfold lexOrdT
  rw [then_swap, cmpNatList_swap, cmpNatList_swap]

theorem lexOrdT_self (a : String) : lexOrdT a a = .eq := by
  unfold lexOrdT
  rw [(cmpNatList_eq_iff _ _).mpr rfl, then_eq, (cmpNatList_eq_iff _ _).mpr rfl]

theorem jsLocaleCompare_self (a : String) : jsLocaleCompare a a = 0 := by
  rw [jsLocaleCompare_eq_match, lexOrdT_self]

theorem cmpNatList_lt_trans : ∀ as bs cs, cmpNatList as bs = .lt → cmpNatList bs cs = .lt →
    cmpNatList as cs = .lt := by
  intro as
  induction as with
  | nil =>
    intro bs cs hab hbc
    cases bs with
    | nil => exact hbc
    | cons b bt =>
      cases cs with
      | nil => cases hbc
      | cons c ct => rfl
  | cons a at_ ih =>
    intro bs cs hab hbc
    cases bs with
    | nil => cases hab
    | cons b bt =>
      cases cs with
      | nil => cases hbc
      | cons c ct =>
        simp only [cmpNatList] at hab hbc ⊢
        rcases hc1 : compare a b with h | h | h
        all_goals rw [hc1] at hab
        · rcases hc2 : compare b c with h2 | h2 | h2
          all_goals rw [hc2] at hbc
          · rw [Nat.compare_eq_lt.mpr
              (Nat.lt_trans (Nat.compare_eq_lt.mp hc1) (Nat.compare_eq_lt.mp hc2)), then_lt]
          · have := Nat.compare_eq_eq.mp hc2
            subst this
            rw [hc1, then_lt]
          · rw [then_gt] at hbc; cases hbc
        · have := Nat.compare_eq_eq.mp hc1
          subst this
          rcases hc2 : compare a c with h2 | h2 | h2
          all_goals rw [hc2] at hbc
          · rw [then_lt]
          · rw [then_eq] at hab hbc ⊢
            exact ih _ _ hab hbc
          · rw [then_gt] at hbc; cases hbc
        · rw [then_gt] at hab; cases hab

theorem lexOrdT_ngt_trans (a b c : String)
    (hab : lexOrdT a b ≠ .gt) (hbc : lexOrdT b c ≠ .gt) : lexOrdT a c ≠ .gt := by
  unfold lexOrdT at hab hbc ⊢
  rcases hp : cmpNatList (localePrimary a) (localePrimary b) with h | h | h
  all_goals rw [hp] at hab
  · rcases hq : cmpNatList (localePrimary b) (localePrimary c) with h2 | h2 | h2
    all_goals rw [hq] at hbc
    · rw [cmpNatList_lt_trans _ _ _ hp hq, then_lt]; simp
    · have hpc := (cmpNatList_eq_iff _ _).mp hq
      rw [← hpc, hp, then_lt]
      simp
    · rw [then_gt] at hbc; exact absurd rfl hbc
  · have hpab := (cmpNatList_eq_iff _ _).mp hp
    rw [then_eq] at hab
    rcases hq : cmpNatList (localePrimary b) (localePrimary c) with h2 | h2 | h2
    all_goals rw [hq] at hbc
    · rw [hpab, hq, then_lt]; simp
    · have hpbc := (cmpNatList_eq_iff _ _).mp hq
      rw [hpab, hq, then_eq]
      rw [then_eq] at hbc
      -- tertiary transitivity needs the tertiary ngt facts
      exact cmpNatList_ngt_trans _ _ _ hab hbc
    · rw [then_gt] at hbc; exact absurd rfl hbc
  · rw [then_gt] at hab; exact absurd rfl hab

theorem lexOrdT_total (a b : String) : lexOrdT a b ≠ .gt ∨ lexOrdT b a ≠ .gt := by
  rcases h : lexOrdT a b with _ | _ | _
  · left; simp [h]
  · left; simp [h]
  · right
    rw [← lexOrdT_swap, h]
    decide

instance : IsTotal Bookmark titleLE := by
  constructor
  intro a b
  rcases lexOrdT_total a.title b.title with h | h
  · exact Or.inl ((locale_le_iff _ _).mpr h)
  · exact Or.inr ((locale_le_iff _ _).mpr h)

instance : IsTrans Bookmark titleLE := by
  constructor
  intro a b c hab hbc
  exact (locale_le_iff _ _).mpr
    (lexOrdT_ngt_trans _ _ _ ((locale_le_iff _ _).mp hab) ((locale_le_iff _ _).mp hbc))

theorem titleLE_of_title_eq (a b : Bookmark) (h : a.title = b.title) : titleLE a b := by
  unfold titleLE
  rw [h, jsLocaleCompare_self]

theorem filter_orderedInsert_pos (t0 : String) (x : Bookmark) (hx : x.title = t0) :
    ∀ s : List Bookmark, (s.orderedInsert titleLE x).filter (fun b => b.title == t0) =
      x :: s.filter (fun b => b.title == t0) := by
  intro s
  induction s with
  | nil => simp [List.orderedInsert, hx]
  | cons y ys ih =>
    rw [List.orderedInsert]
    split
    · simp [List.filter_cons, hx]
    · rename_i hnle
      have hyt : (y.title == t0) = false := by
        rw [beq_eq_false_iff_ne]
        intro hy
        exact hnle (titleLE_of_title_eq x y (by rw [hx, hy]))
      simp only [List.filter_cons, hyt, if_neg]
      rw [ih]
      simp

theorem filter_orderedInsert_neg (t0 : String) (x : Bookmark)
    (hx : (x.title == t0) = false) :
    ∀ s : List Bookmark, (s.orderedInsert titleLE x).filter (fun b => b.title == t0) =
      s.filter (fun b => b.title == t0) := by
  intro s
  induction s with
  | nil => simp [List.orderedInsert, hx]
  | cons y ys ih =>
    rw [List.orderedInsert]
    split
    · simp [List.filter_cons, hx]
    · simp only [List.filter_cons]
      rw [ih]

theorem insertionSort_title_filter (t0 : String) (l : List Bookmark) :
    (List.insertionSort titleLE l).filter (fun b => b.title == t0) =
      l.filter (fun b => b.title == t0) := by
  induction l with
  | nil => rfl
  | cons x l ih =>
    rw [List.insertionSort]
    by_cases hx : x.title = t0
    · rw [filter_orderedInsert_pos t0 x hx, ih]
      simp [List.filter_cons, hx]
    · have hxb : (x.title == t0) = false := by rw [beq_eq_false_iff_ne]; exact hx
      rw [filter_orderedInsert_neg t0 x hxb, ih]
      simp [List.filter_cons, hxb]

/-!  Facts about the resolver: marker filtering, bookmark-id selection
and the failure behaviour of the Promise.all joins. -/

theorem keywordResultToBookmark_marker (repo : Repository) (kr : KeywordRecord) (b : Bookmark)
    (h : MCS.keywordResultToBookmark repo (some kr) = .ok (some b)) :
    (hasMarker b.url || hasMarker b.postData) = true ∧ b.url = kr.url ∧
      decodedPostData kr = .ok b.postData := by
  simp only [MCS.keywordResultToBookmark] at h
  split at h
  · cases h
  · rename_i postData hd
    split at h
    · cases h
    · rename_i hmark
      split at h
      · cases h
      · rename_i u hu
        split at h
        · cases h
        · rename_i id hfind
          split at h
          · cases h
          · rename_i hid0
            injection h with h1
            injection h1 with h2
            subst h2
            refine ⟨?_, rfl, hd⟩
            rcases hcu : hasMarker kr.url with _ | _ <;>
              rcases hcp : hasMarker postData with _ | _ <;> simp_all

theorem keywordResultToBookmark_markerless (repo : Repository) (kr : KeywordRecord) (d : String)
    (hd : decodedPostData kr = .ok d) (hu : hasMarker kr.url = false)
    (hp : hasMarker d = false) :
    MCS.keywordResultToBookmark repo (some kr) = .ok none := by
  simp only [MCS.keywordResultToBookmark, hd, hu, hp]
  simp

theorem keywordResultToBookmark_find (repo : Repository) (kr : KeywordRecord) (b : Bookmark)
    (h : MCS.keywordResultToBookmark repo (some kr) = .ok (some b)) :
    (repo.getBookmarkIdsForURI kr.url).find? (fun id => repo.getItemType id == TYPE_BOOKMARK)
        = some b.id ∧ b.id ≠ 0 ∧ repo.getItemType b.id = TYPE_BOOKMARK := by
  simp only [MCS.keywordResultToBookmark] at h
  split at h
  · cases h
  · rename_i postData hd
    split at h
    · cases h
    · rename_i hmark
      split at h
      · cases h
      · rename_i u hu
        split at h
        · cases h
        · rename_i id hfind
          split at h
          · cases h
          · rename_i hid0
            injection h with h1
            injection h1 with h2
            subst h2
            split at hfind
            · rename_i hlen
              refine ⟨hfind, hid0, ?_⟩
              have := List.find?_some hfind
              simpa [TYPE_BOOKMARK] using this
            · cases hfind

theorem keywordResultToBookmark_nofind (repo : Repository) (kr : KeywordRecord)
    (hfind : (repo.getBookmarkIdsForURI kr.url).find?
          (fun id => repo.getItemType id == TYPE_BOOKMARK) = none
        ∨ (repo.getBookmarkIdsForURI kr.url).find?
          (fun id => repo.getItemType id == TYPE_BOOKMARK) = some 0) :
    ∀ b, MCS.keywordResultToBookmark repo (some kr) ≠ .ok (some b) := by
  intro b hcon
  obtain ⟨hf, hne, htype⟩ := keywordResultToBookmark_find repo kr b hcon
  rcases hfind with h0 | h0
  · rw [hf] at h0; cases h0
  · rw [hf] at h0
    injection h0 with h1
    exact hne h1

theorem promiseAll_ok_forall {α β : Type} (f : α → Except JsError β) :
    ∀ (l : List α) (ys : List β), promiseAll f l = .ok ys →
      ∀ a ∈ l, ∃ y, f a = .ok y ∧ y ∈ ys := by
  intro l
  induction l with
  | nil => intro ys h a ha; cases ha
  | cons x xs ih =>
    intro ys h a ha
    rw [promiseAll] at h
    rcases hfx : f x with e | y
    all_goals rw [hfx] at h
    · cases h
    · rcases hrest : promiseAll f xs with e | zs
      all_goals rw [hrest] at h
      · cases h
      · injection h with h1
        subst h1
        rcases List.mem_cons.mp ha with rfl | hmem
        · exact ⟨y, hfx, List.mem_cons_self _ _⟩
        · obtain ⟨z, hz1, hz2⟩ := ih zs hrest a hmem
          exact ⟨z, hz1, List.mem_cons_of_mem _ hz2⟩

theorem promiseAll_error_of_mem {α β : Type} (f : α → Except JsError β) :
    ∀ (l : List α) (a : α), a ∈ l → (∃ e, f a = .error e) →
      ∃ e2, promiseAll f l = .error e2 := by
  intro l
  induction l with
  | nil => intro a ha; cases ha
  | cons x xs ih =>
    intro a ha ⟨e, he⟩
    rw [promiseAll]
    rcases hfx : f x with e2 | y
    · exact ⟨e2, rfl⟩
    · rcases List.mem_cons.mp ha with rfl | hmem
      · rw [hfx] at he; cases he
      · obtain ⟨e3, he3⟩ := ih a hmem ⟨e, he⟩
        rw [he3]
        exact ⟨e3, rfl⟩

theorem promiseAll_ok_mem_inv {α β : Type} (f : α → Except JsError β) :
    ∀ (l : List α) (ys : List β), promiseAll f l = .ok ys →
      ∀ y ∈ ys, ∃ a ∈ l, f a = .ok y := by
  intro l
  induction l with
  | nil =>
    intro ys h y hy
    rw [promiseAll] at h
    injection h with h1
    subst h1
    cases hy
  | cons x xs ih =>
    intro ys h y hy
    rw [promiseAll] at h
    rcases hfx : f x with e | z
    all_goals rw [hfx] at h
    · cases h
    · rcases hrest : promiseAll f xs with e | zs
      all_goals rw [hrest] at h
      · cases h
      · injection h with h1
        subst h1
        rcases List.mem_cons.mp hy with rfl | hmem
        · exact ⟨x, List.mem_cons_self _ _, hfx⟩
        · obtain ⟨a, ha1, ha2⟩ := ih zs hrest y hmem
          exact ⟨a, List.mem_cons_of_mem _ ha1, ha2⟩

theorem promiseAll_exists_ok {α β : Type} (f : α → Except JsError β) (P : β → Prop) :
    ∀ l : List α, (∀ a ∈ l, ∃ y, f a = .ok y ∧ P y) →
      ∃ ys, promiseAll f l = .ok ys ∧ ∀ y ∈ ys, P y := by
  intro l
  induction l with
  | nil => intro h; exact ⟨[], rfl, by intro y hy; cases hy⟩
  | cons x xs ih =>
    intro h
    obtain ⟨y, hy1, hy2⟩ := h x (List.mem_cons_self _ _)
    obtain ⟨ys, hys1, hys2⟩ := ih (fun a ha => h a (List.mem_cons_of_mem _ ha))
    refine ⟨y :: ys, ?_, ?_⟩
    · rw [promiseAll, hy1, hys1]
    · intro z hz
      rcases List.mem_cons.mp hz with rfl | hmem
      · exact hy2
      · exact hys2 z hmem

theorem keywordResultsToBookmarks_ok (repo : Repository)
    (rs : List (Option KeywordRecord)) (bms : List Bookmark)
    (h : MCS.keywordResultsToBookmarks repo rs = .ok bms) :
    ∃ os, promiseAll (MCS.keywordResultToBookmark repo) rs = .ok os ∧
      bms = os.filterMap id := by
  unfold MCS.keywordResultsToBookmarks at h
  rcases hp : promiseAll (MCS.keywordResultToBookmark repo) rs with e | os
  all_goals rw [hp] at h
  · cases h
  · injection h with h1
    exact ⟨os, rfl, h1.symm⟩

theorem getCandidates_ok (repo : Repository) (tag : String) (bms : List Bookmark)
    (h : MCS.getCandidates repo tag = .ok bms) :
    ∃ rs, promiseAll repo.fetchKeyword (repo.getURIsForTag tag) = .ok rs ∧
      MCS.keywordResultsToBookmarks repo rs = .ok bms := by
  unfold MCS.getCandidates MCS.getKeywordBookmarksForTag at h
  rcases hk : promiseAll repo.fetchKeyword (repo.getURIsForTag tag) with e | rs
  all_goals rw [hk] at h
  · cases h
  · exact ⟨rs, rfl, h⟩

theorem getCandidates_marker (repo : Repository) (tag : String) (bms : List Bookmark)
    (h : MCS.getCandidates repo tag = .ok bms) :
    ∀ b ∈ bms, (hasMarker b.url || hasMarker b.postData) = true := by
  intro b hb
  obtain ⟨rs, hrs, hconv⟩ := getCandidates_ok repo tag bms h
  obtain ⟨os, hos, hfil⟩ := keywordResultsToBookmarks_ok repo rs bms hconv
  subst hfil
  obtain ⟨o, ho1, ho2⟩ := List.mem_filterMap.mp hb
  obtain ⟨r, hr1, hr2⟩ := promiseAll_ok_mem_inv _ rs os hos o ho1
  cases r with
  | none => rw [MCS.keywordResultToBookmark] at hr2; cases hr2
  | some kr =>
    subst ho2
    exact (keywordResultToBookmark_marker repo kr b hr2).1

theorem getCandidates_batch_error (repo : Repository) (tag : String) (uri : String)
    (hm : uri ∈ repo.getURIsForTag tag)
    (hbad : (∃ e, repo.fetchKeyword uri = .error e) ∨ repo.fetchKeyword uri = .ok none) :
    ∃ e, MCS.getCandidates repo tag = .error e := by
  unfold MCS.getCandidates MCS.getKeywordBookmarksForTag
  rcases hbad with he | hnone
  · obtain ⟨e2, he2⟩ := promiseAll_error_of_mem repo.fetchKeyword _ uri hm he
    rw [he2]
    exact ⟨e2, rfl⟩
  · rcases hk : promiseAll repo.fetchKeyword (repo.getURIsForTag tag) with e | rs
    · exact ⟨e, rfl⟩
    · obtain ⟨y, hy1, hy2⟩ := promiseAll_ok_forall _ _ rs hk uri hm
      rw [hnone] at hy1
      injection hy1 with h1
      subst h1
      obtain ⟨e3, he3⟩ := promiseAll_error_of_mem (MCS.keywordResultToBookmark repo) rs none hy2
        ⟨.typeError "keywordResult is null", by rw [MCS.keywordResultToBookmark]⟩
      dsimp only
      unfold MCS.keywordResultsToBookmarks
      rw [he3]
      exact ⟨e3, rfl⟩

theorem getCandidates_empty_uris (repo : Repository) (tag : String)
    (h : repo.getURIsForTag tag = []) : MCS.getCandidates repo tag = .ok [] := by
  unfold MCS.getCandidates MCS.getKeywordBookmarksForTag
  rw [h]
  rfl

theorem getCandidates_all_markerless (repo : Repository) (tag : String)
    (h : ∀ u ∈ repo.getURIsForTag tag, ∃ r d, repo.fetchKeyword u = .ok (some r) ∧
      decodedPostData r = .ok d ∧ hasMarker r.url = false ∧ hasMarker d = false) :
    MCS.getCandidates repo tag = .ok [] := by
  obtain ⟨rs, hrs, hP⟩ := promiseAll_exists_ok repo.fetchKeyword
    (fun r => MCS.keywordResultToBookmark repo r = .ok none) (repo.getURIsForTag tag)
    (by
      intro u hu
      obtain ⟨r, d, hf, hd, hcu, hcp⟩ := h u hu
      exact ⟨some r, hf, keywordResultToBookmark_markerless repo r d hd hcu hcp⟩)
  obtain ⟨os, hos, hnone⟩ := promiseAll_exists_ok (MCS.keywordResultToBookmark repo)
    (fun o => o = none) rs (fun r hr => ⟨none, hP r hr, rfl⟩)
  unfold MCS.getCandidates MCS.getKeywordBookmarksForTag
  rw [hrs]
  dsimp only
  unfold MCS.keywordResultsToBookmarks
  rw [hos]
  have : os.filterMap id = [] := by
    rw [List.filterMap_eq_nil_iff]
    intro a ha
    exact hnone a ha
  simp [Except.map, this]

/-!  The claims. -/

/-- Claim C1 (code-bug evaluation): the claim says every element of the
enrichment result is a bookmark object with a populated faviconURL, the
zero-length case falling back to the default favicon on the bookmark.
Evaluating the code at the failing input shows otherwise: the element for
the candidate whose fetch resolves with zero-length data is the bare
default-favicon string, the bookmark object is dropped from the result
and its iconURL stays empty, while the sibling candidate is enriched
normally. -/
theorem claim_C1_zero_length_favicon_eval :
    (MCS.promiseAllBookmarksWithFavicons repoFav heapZeroOne [0, 1]).2 =
      [MCS.FavResolved.str MCS.getDefaultFavicon, MCS.FavResolved.ref 1] ∧
    ((MCS.promiseAllBookmarksWithFavicons repoFav heapZeroOne [0, 1]).1 0).iconURL = "" ∧
    ((MCS.promiseAllBookmarksWithFavicons repoFav heapZeroOne [0, 1]).1 1).iconURL =
      "data:image/png;base64,YWJj" := by decide

/-- Claim C2 counterexample: with two tagged URIs, a repository error for
the first alone makes getCandidates reject the whole batch and propagate
the error to its caller, and an absent keyword record for the first URI
alone makes the conversion throw a TypeError, also rejecting the batch;
yet the sibling record by itself converts to a bookmark fine. -/
theorem claim_C2_counterexample :
    MCS.getCandidates repoFetchErr "search" = .error (.repoError "db failure") ∧
    MCS.getCandidates repoFetchNone "search" = .error (.typeError "keywordResult is null") ∧
    MCS.keywordResultToBookmark repoFetchErr (some krGood) = .ok (some bookOne) := by decide

/-- Claim C2 amended: a repository error or an absent keyword record for
one tagged URI always makes getCandidates reject the whole batch with an
error that propagates to its caller; the sibling candidates are lost
rather than preserved. -/
theorem claim_C2_amended : ∀ (repo : Repository) (tag uri : String),
    uri ∈ repo.getURIsForTag tag →
    ((∃ e, repo.fetchKeyword uri = .error e) ∨ repo.fetchKeyword uri = .ok none) →
    ∃ e, MCS.getCandidates repo tag = .error e :=
  fun repo tag uri => getCandidates_batch_error repo tag uri

/-- Witness for the amended C2 at the concrete failing repository. -/
theorem claim_C2_amended_witness :
    ∃ e, MCS.getCandidates repoFetchErr "search" = .error e :=
  claim_C2_amended repoFetchErr "search" "https://bad.example/" (by decide)
    (Or.inl ⟨.repoError "db failure", by decide⟩)

/-- Claim C3 counterexample: an operation of the core does abort with an
error: the submission builder throws on a substituted URL that is not an
absolute URI, and its caller does not catch the exception. -/
theorem claim_C3_counterexample :
    getSubmission bmSpaceURL "x" = .error (.malformedURI "foo bar/x") := by decide

/-- Claim C3 amended: the absence-of-input cases degrade to an empty
result sequence without an error: an empty tag is guarded off at the call
site, a tag with no URIs resolves to an empty candidate list, and fetched
records that all lack the substitution marker are silently discarded to
an empty list; empty lists pass unchanged through favicon enrichment and
the title sort.  (The universal no-fatal-abort clause of the claim is
dropped: the submission builder can throw, see the counterexample.) -/
theorem claim_C3_amended :
    (∀ repo : Repository, MCS.keywordMenuCandidates repo "" = .ok []) ∧
    (∀ (repo : Repository) (tag : String), repo.getURIsForTag tag = [] →
      MCS.getCandidates repo tag = .ok []) ∧
    (∀ (repo : Repository) (tag : String),
      (∀ u ∈ repo.getURIsForTag tag, ∃ r d, repo.fetchKeyword u = .ok (some r) ∧
        decodedPostData r = .ok d ∧ hasMarker r.url = false ∧ hasMarker d = false) →
      MCS.getCandidates repo tag = .ok []) ∧
    (∀ (repo : Repository) (h : MCS.BookmarkHeap),
      MCS.promiseAllBookmarksWithFavicons repo h [] = (h, [])) ∧
    MCS.sortBookmarksByTitle [] = [] := by
  refine ⟨fun repo => rfl, getCandidates_empty_uris, getCandidates_all_markerless,
    fun repo h => rfl, rfl⟩

/-- Witness for the amended C3 at two concrete repositories. -/
theorem claim_C3_amended_witness :
    MCS.getCandidates repoNoTags "search" = .ok [] ∧
    MCS.getCandidates repoShortcut "search" = .ok [] :=
  ⟨claim_C3_amended.2.1 repoNoTags "search" rfl,
   claim_C3_amended.2.2.1 repoShortcut "search" (by
     intro u hu
     exact ⟨{ keyword := "p", url := "https://plain.example/page", postData := "" }, "",
       rfl, rfl, by decide, rfl⟩)⟩

/-- Claim C4 counterexample: when substitution produces a string that
does not parse as an absolute URI, getSubmission does not return a typed
BuildFailed value: it throws (the error value of the model), which
propagates to its immediate caller. -/
theorem claim_C4_counterexample :
    getSubmission bmMarkerOnly "hello" = .error (.malformedURI "hello") := by decide

/-- Claim C4 amended: whenever the substituted URL fails to parse as an
absolute URI, getSubmission propagates exactly the thrown parse error to
its immediate caller; no typed failure value exists in the code. -/
theorem claim_C4_amended : ∀ (bookmark : Bookmark) (searchText : String) (e : JsError),
    newURI (jsSubstitute bookmark.url (jsEncode searchText)) = .error e →
    getSubmission bookmark searchText = .error e := by
  intro bm text e h
  simp only [getSubmission]
  rw [h]

/-- Witness for the amended C4 at a concrete malformed template. -/
theorem claim_C4_amended_witness :
    getSubmission bmMarkerOnly "zzz" = .error (.malformedURI "zzz") :=
  claim_C4_amended bmMarkerOnly "zzz" (.malformedURI "zzz") (by decide)

/-- Claim C5: a BookmarkEngine is produced from a keyword record only if
the record url or the percent-decoded postData contains the marker at
least once; a record whose url and decoded postData both lack the marker
yields null (silent exclusion, no error); and every bookmark in the
output of getCandidates carries the marker in its url or decoded
postData. -/
theorem claim_C5 :
    (∀ (repo : Repository) (kr : KeywordRecord) (b : Bookmark),
      MCS.keywordResultToBookmark repo (some kr) = .ok (some b) →
      (hasMarker kr.url || hasMarker b.postData) = true ∧
        decodedPostData kr = .ok b.postData) ∧
    (∀ (repo : Repository) (kr : KeywordRecord) (d : String),
      decodedPostData kr = .ok d → hasMarker kr.url = false → hasMarker d = false →
      MCS.keywordResultToBookmark repo (some kr) = .ok none) ∧
    (∀ (repo : Repository) (tag : String) (bms : List Bookmark),
      MCS.getCandidates repo tag = .ok bms →
      ∀ b ∈ bms, (hasMarker b.url || hasMarker b.postData) = true) := by
  refine ⟨?_, keywordResultToBookmark_markerless, getCandidates_marker⟩
  intro repo kr b h
  obtain ⟨hm, hu, hd⟩ := keywordResultToBookmark_marker repo kr b h
  exact ⟨hu ▸ hm, hd⟩

/-- Witness for C5 at a concrete one-candidate repository. -/
theorem claim_C5_witness :
    MCS.getCandidates repoOne "search" = .ok [bookOne] ∧
    (hasMarker bookOne.url || hasMarker bookOne.postData) = true :=
  ⟨by decide, claim_C5.2.2 repoOne "search" [bookOne] (by decide) bookOne (by decide)⟩

/-- Claim C6: the assembler returns a permutation of its input, sorted
ascending by title under the locale-aware comparator, stable in the sense
that the candidates of any fixed title keep their input order, and the
titles B, a, C come out ordered a, B, C. -/
theorem claim_C6 :
    (∀ l : List Bookmark, (MCS.sortBookmarksByTitle l).Perm l) ∧
    (∀ l : List Bookmark, List.Sorted titleLE (MCS.sortBookmarksByTitle l)) ∧
    (∀ (l : List Bookmark) (t : String),
      (MCS.sortBookmarksByTitle l).filter (fun b => b.title == t) =
        l.filter (fun b => b.title == t)) ∧
    (MCS.sortBookmarksByTitle [bookTitleB, bookTitleA, bookTitleC]).map Bookmark.title
      = ["a", "B", "C"] := by
  refine ⟨fun l => List.perm_insertionSort titleLE l,
    fun l => List.sorted_insertionSort titleLE l,
    fun l t => insertionSort_title_filter t l, by decide⟩

/-- Claim C7: the source encoder (encodeURIComponent followed by the
global percent-twenty-to-plus rewrite) equals, on every string, the
per-character query-component percent-encoding that maps the space
directly to a plus sign; with the three concrete examples. -/
theorem claim_C7 :
    (∀ s : String, jsEncode s = encodeSpecC7 s) ∧
    jsEncode " " = "+" ∧ jsEncode "a b" = "a+b" ∧ jsEncode "a&b" = "a%26b" := by
  refine ⟨fun s => ?_, by decide, by decide, by decide⟩
  unfold jsEncode encodeSpecC7 encodeURIComponentJS
  rw [replaceP20_flatMap_enc]

/-- Claim C8: the substitution scan equals the decomposition of the
template at every non-overlapping marker occurrence joined with the
escaped text, the decomposition reassembles the template exactly and no
segment of it contains the marker (so every marker occurrence is replaced
and all other characters are untouched); substitution applies
independently to the URL and the POST body, and the concrete build
example yields hello+world in the URI. -/
theorem claim_C8 :
    (∀ e t : List Char, replacePS e t = joinWith e (splitPS t)) ∧
    (∀ t : List Char, joinWith ['%', 's'] (splitPS t) = t) ∧
    (∀ t : List Char, (splitPS t).all (fun s => !hasPS s) = true) ∧
    getSubmission bmBuild "hello world" =
      .ok { uri := "https://x.com/s?q=hello+world", postData := none } ∧
    getSubmission bmBuildPost "hello world" =
      .ok { uri := "https://x.com/s",
            postData := some { contentType := "application/x-www-form-urlencoded",
                               addContentLength := true,
                               data := "q=hello+world&lang=en" } } := by
  refine ⟨replacePS_eq_joinWith, joinWith_splitPS, fun t => ?_, by decide, by decide⟩
  rw [List.all_eq_true]
  intro s hs
  simp [splitPS_noPS t s hs]

/-- Claim C9 counterexample: a URI mapping to the two bookmark-type ids
0 and 7 yields no BookmarkEngine at all, because the selected first id 0
is falsy in the source test; the claim would select id 0. -/
theorem claim_C9_counterexample :
    repoFindZero.getBookmarkIdsForURI krGood.url = [0, 7] ∧
    repoFindZero.getItemType 0 = TYPE_BOOKMARK ∧
    repoFindZero.getItemType 7 = TYPE_BOOKMARK ∧
    MCS.keywordResultToBookmark repoFindZero (some krGood) = .ok none := by decide

/-- Claim C9 amended: a produced BookmarkEngine always carries the first
bookmark-type id in the repository order of the id list (folder and
separator ids are excluded), and that id is nonzero; when no bookmark-type
id exists, or the first one found is the falsy id 0, the record yields no
BookmarkEngine. -/
theorem claim_C9_amended : ∀ (repo : Repository) (kr : KeywordRecord),
    (∀ b : Bookmark, MCS.keywordResultToBookmark repo (some kr) = .ok (some b) →
      (repo.getBookmarkIdsForURI kr.url).find?
          (fun id => repo.getItemType id == TYPE_BOOKMARK) = some b.id ∧
        b.id ≠ 0 ∧ repo.getItemType b.id = TYPE_BOOKMARK) ∧
    (((repo.getBookmarkIdsForURI kr.url).find?
          (fun id => repo.getItemType id == TYPE_BOOKMARK) = none ∨
      (repo.getBookmarkIdsForURI kr.url).find?
          (fun id => repo.getItemType id == TYPE_BOOKMARK) = some 0) →
      ∀ b, MCS.keywordResultToBookmark repo (some kr) ≠ .ok (some b)) :=
  fun repo kr =>
    ⟨fun b => keywordResultToBookmark_find repo kr b, keywordResultToBookmark_nofind repo kr⟩

/-- Witness for the amended C9: a folder id is skipped in favour of the
bookmark id 6, and a record with no ids yields nothing. -/
theorem claim_C9_amended_witness :
    ((repoFindSix.getBookmarkIdsForURI krGood.url).find?
        (fun id => repoFindSix.getItemType id == TYPE_BOOKMARK) = some bookSix.id ∧
      bookSix.id ≠ 0 ∧ repoFindSix.getItemType bookSix.id = TYPE_BOOKMARK) ∧
    MCS.keywordResultToBookmark repoNoBookmarkIds (some krGood) ≠ .ok (some bookSix) :=
  ⟨(claim_C9_amended repoFindSix krGood).1 bookSix (by decide),
   (claim_C9_amended repoNoBookmarkIds krGood).2 (Or.inl (by decide)) bookSix⟩

/-- Claim C10 counterexample: when the favicon fetch succeeds with
zero-length data, the resolved element is the bare default-favicon string
rather than the same bookmark object reference, and the iconURL of the
bookmark is not overwritten. -/
theorem claim_C10_counterexample :
    (MCS.resolveBookmarkFavicon repoFav heapZeroOne 0).2 = .str MCS.getDefaultFavicon ∧
    ((MCS.resolveBookmarkFavicon repoFav heapZeroOne 0).1 0).iconURL = "" := by decide

/-- Claim C10 amended: when the favicon fetch succeeds with non-empty
data or rejects, the resolved element is the same bookmark object
reference with only its iconURL field overwritten in place; and the title
sort overwrites the contents of the receiver array in place and returns
that same array reference, all other arrays untouched. -/
theorem claim_C10_amended :
    (∀ (repo : Repository) (h : MCS.BookmarkHeap) (r : Nat) (d : FaviconData),
      repo.promiseFaviconData (h r).url = .ok d → d.dataLen ≠ 0 →
      MCS.resolveBookmarkFavicon repo h r =
        (h.set r { h r with iconURL :=
            "data:" ++ d.mimeType ++ ";base64," ++ String.mk (MCS.base64Encode d.data) },
         .ref r)) ∧
    (∀ (repo : Repository) (h : MCS.BookmarkHeap) (r : Nat) (e : JsError),
      repo.promiseFaviconData (h r).url = .error e →
      MCS.resolveBookmarkFavicon repo h r =
        (h.set r { h r with iconURL := MCS.getDefaultFavicon }, .ref r)) ∧
    (∀ (bh : MCS.BookmarkHeap) (ah : MCS.ArrayHeap) (arr : Nat),
      (MCS.sortBookmarksByTitleInPlace bh ah arr).2 = arr ∧
      (MCS.sortBookmarksByTitleInPlace bh ah arr).1 arr =
        List.insertionSort (MCS.titleRefLE bh) (ah arr) ∧
      ∀ a2, a2 ≠ arr → (MCS.sortBookmarksByTitleInPlace bh ah arr).1 a2 = ah a2) := by
  refine ⟨?_, ?_, ?_⟩
  · intro repo h r d hd hlen
    unfold MCS.resolveBookmarkFavicon
    rw [hd]
    simp [hlen]
  · intro repo h r e he
    unfold MCS.resolveBookmarkFavicon
    rw [he]
  · intro bh ah arr
    refine ⟨rfl, ?_, ?_⟩
    · unfold MCS.sortBookmarksByTitleInPlace MCS.ArrayHeap.set
      simp
    · intro a2 ha2
      unfold MCS.sortBookmarksByTitleInPlace MCS.ArrayHeap.set
      simp [ha2]

/-- Witness for the amended C10 at the concrete favicon repository. -/
theorem claim_C10_amended_witness :
    MCS.resolveBookmarkFavicon repoFav heapZeroOne 1 =
      (heapZeroOne.set 1 { heapZeroOne 1 with iconURL :=
          "data:" ++ favAbc.mimeType ++ ";base64," ++ String.mk (MCS.base64Encode favAbc.data) },
       .ref 1) ∧
    MCS.resolveBookmarkFavicon repoFetchErr heapZeroOne 0 =
      (heapZeroOne.set 0 { heapZeroOne 0 with iconURL := MCS.getDefaultFavicon }, .ref 0) :=
  ⟨claim_C10_amended.1 repoFav heapZeroOne 1 favAbc (by decide) (by decide),
   claim_C10_amended.2.1 repoFetchErr heapZeroOne 0 (.repoError "favicon") (by decide)⟩
